import Mathlib

/-!
# Universal Ledger CLI — shallow embedding and verification

This file embeds the core of `src/bin/ulc.js` (Universal Ledger CLI v0.1.0)
in Lean 4 and settles the frozen claims about it.

Modelling conventions:
* JSON/JavaScript values are modelled by the inductive `JsVal`; JS truthiness,
  nullish coalescing (`??`), property access and `typeof`-guards are modelled
  by explicit helper functions.
* `die(msg)` calls `process.exit`, which unwinds the whole process and cannot
  be intercepted by a surrounding `try/catch`; it is modelled as `Except.error`
  propagated to the top of each embedded operation.
* File-system reads/writes are out of scope per the spec ("external
  collaborators"); the store is modelled as the record held at the target
  path, and JSON parsing of a file is abstracted as an `Option JsVal`
  (`none` = content that is not well-formed JSON).
-/

namespace ULC

/-- JavaScript/JSON values as manipulated by `ulc.js`.  Numbers are modelled
as integers (the ledger schema only ever uses strings, booleans, arrays and
objects; numeric fields can only appear in hand-edited files). -/
inductive JsVal where
  | str : String → JsVal
  | num : Int → JsVal
  | bool : Bool → JsVal
  | null : JsVal
  | arr : List JsVal → JsVal
  | obj : List (String × JsVal) → JsVal

/-- JS truthiness: `""`, `0`, `false`, `null`/`undefined` are falsy; every
array and object (even empty) is truthy. -/
def JsVal.truthy : JsVal → Bool
  | .str s => s ≠ ""
  | .num n => n ≠ 0
  | .bool b => b
  | .null => false
  | .arr _ => true
  | .obj _ => true

/-- Truthiness of a possibly-absent value (`undefined` is falsy). -/
def truthyOpt : Option JsVal → Bool
  | none => false
  | some v => v.truthy

/-- JS property read `v.k`: defined only on objects; on strings, numbers,
booleans, arrays and null it yields `undefined` (no ledger field name
collides with a built-in property). -/
def jsGetProp : JsVal → String → Option JsVal
  | .obj l, k => l.lookup k
  | _, _ => none

/-- Update-or-append an entry of an association list, keeping key order. -/
def setEntry : List (String × JsVal) → String → JsVal → List (String × JsVal)
  | [], k, x => [(k, x)]
  | (k', v') :: rest, k, x =>
    if k' = k then (k, x) :: rest else (k', v') :: setEntry rest k x

/-- JS property write `v.k = x` on an object.  On a non-object the property
does not survive (properties attached to arrays are dropped by
`JSON.stringify` when the record is persisted, so they are unobservable). -/
def jsSetProp : JsVal → String → JsVal → JsVal
  | .obj l, k, x => .obj (setEntry l k x)
  | v, _, _ => v

/-- Nullish coalescing `o ?? d`: `undefined` and `null` fall through to the
default, every other value (including falsy ones) is kept. -/
def jsNullish (o : Option JsVal) (d : JsVal) : JsVal :=
  match o with
  | some .null => d
  | some v => v
  | none => d

/-- `Array.isArray(o) ? o : []` — the element list of `o` if it is an array,
else the empty list. -/
def jsArrElems : Option JsVal → List JsVal
  | some (.arr l) => l
  | _ => []

/-- The guard `x && typeof x === "object" ? x : {}` used by the patcher for
`rec.style` and `rec.last_state` (`typeof null === "object"` but `null` is
falsy, so only genuine objects and arrays pass). -/
def jsObjGuard : Option JsVal → JsVal
  | some (.obj l) => .obj l
  | some (.arr l) => .arr l
  | _ => .obj []

mutual

/-- JS string conversion `String(v)` / template interpolation `${v}`. -/
def jsToString : JsVal → String
  | .str s => s
  | .num n => toString n
  | .bool b => if b then "true" else "false"
  | .null => "null"
  | .arr l => String.intercalate "," (jsToStringList l)
  | .obj _ => "[object Object]"

/-- `String` conversion of each element of a list of values. -/
def jsToStringList : List JsVal → List String
  | [] => []
  | x :: xs => jsToString x :: jsToStringList xs

end

/-- Template interpolation of a possibly-`undefined` value. -/
def toStrOpt : Option JsVal → String
  | none => "undefined"
  | some v => jsToString v

/-- JS `String.prototype.trim()`: strip leading and trailing whitespace
(implemented over the character list so that it evaluates by reduction). -/
def jsTrim (s : String) : String :=
  ⟨((s.data.dropWhile Char.isWhitespace).reverse.dropWhile Char.isWhitespace).reverse⟩

/-- JS `String.prototype.toLowerCase()` (ASCII case fold, which is all the
yes/no parser needs). -/
def jsToLower (s : String) : String :=
  ⟨s.data.map Char.toLower⟩

/-- JS `String.prototype.endsWith(suffix)` (implemented over the character
list so that it evaluates by reduction). -/
def strEndsWith (s suffix : String) : Bool :=
  suffix.data.reverse.isPrefixOf s.data.reverse

/-- A ledger record as stored on disk: a JSON object with these recognised
keys, each possibly absent (`none` = undefined) and of arbitrary JSON shape
(hand-edited files are accepted).  Unknown extra keys play no role in any of
the operations under study. -/
structure LedgerRecord where
  lid : Option JsVal
  project : Option JsVal
  created_at : Option JsVal
  summary : Option JsVal
  goals : Option JsVal
  constraints : Option JsVal
  style : Option JsVal
  last_state : Option JsVal
  modified_at : Option JsVal

/-- Field lookup used by `hardValidateLedgerRecord`'s `required.filter`. -/
def recField (r : LedgerRecord) (k : String) : Option JsVal :=
  if k = "lid" then r.lid
  else if k = "project" then r.project
  else if k = "created_at" then r.created_at
  else if k = "summary" then r.summary
  else none

/-- `const required = ["lid", "project", "created_at", "summary"]`. -/
def requiredFields : List String := ["lid", "project", "created_at", "summary"]

/-- `required.filter((k) => !rec?.[k])` — the required keys whose value is
absent or JS-falsy. -/
def missingFields (r : LedgerRecord) : List String :=
  requiredFields.filter (fun k => !truthyOpt (recField r k))

/-- `typeof rec.lid === "string" && rec.lid.trim().length >= 3`
(the negation of the `invalid lid` test). -/
def lidValid : Option JsVal → Bool
  | some (.str s) => decide (3 ≤ (jsTrim s).length)
  | _ => false

/-- `typeof x === "string" && x.trim()` truthy — used for `project` and
`summary`. -/
def strFieldValid : Option JsVal → Bool
  | some (.str s) => jsTrim s ≠ ""
  | _ => false

/-- `hardValidateLedgerRecord` from `ulc.js` (lines 115–131): first the
missing/falsy filter over the four required keys, then the string/trim checks
on `lid`, `project`, `summary` (note: none on `created_at`).  `die` is
modelled as `Except.error`. -/
def hardValidateLedgerRecord (r : LedgerRecord) : Except String LedgerRecord :=
  if !(missingFields r).isEmpty then
    .error ("ledger entry missing required field(s): " ++
      String.intercalate ", " (missingFields r))
  else if !lidValid r.lid then
    .error "ledger entry has invalid `lid`"
  else if !strFieldValid r.project then
    .error "ledger entry has invalid `project`"
  else if !strFieldValid r.summary then
    .error "ledger entry has invalid `summary`"
  else
    .ok r

/-! ## Compiler (`compileContext`) and text formatter (`formatText`) -/

/-- `const VERSION = "0.1.0"`. -/
def VERSION : String := "0.1.0"

/-- `meta` of a Context Packet: `source`/`version` are constants, the other
three are copied verbatim from the record (hence possibly `undefined` for a
record that skipped validation). -/
structure MetaPacket where
  source : String
  version : String
  lid : Option JsVal
  created_at : Option JsVal
  project : Option JsVal

/-- `style` of a Context Packet, after the `??`-defaulting of
`compileContext` (values are whatever the record held, so still `JsVal`). -/
structure StylePacket where
  tone : JsVal
  format : JsVal
  ask_when_uncertain : JsVal

/-- `last_known_state` of a Context Packet. -/
structure LastKnownState where
  as_of : JsVal
  notes : List JsVal

/-- The Context Packet produced by `compileContext`. -/
structure ContextPacket where
  meta : MetaPacket
  summary : Option JsVal
  goals : List JsVal
  constraints : List JsVal
  style : StylePacket
  last_known_state : LastKnownState
  instructions : List String

/-- `compileContext(rec)` from `ulc.js` (lines 176–210): pure transform of a
record into a Context Packet, with `Array.isArray` normalisation for
`goals`/`constraints`/`last_state.notes` and `??` defaulting for `style` and
`last_state.as_of`. -/
def compileContext (r : LedgerRecord) : ContextPacket :=
  let goals := jsArrElems r.goals
  let constraints := jsArrElems r.constraints
  let style := jsNullish r.style (.obj [])
  let lastState := jsNullish r.last_state (.obj [])
  let lastNotes := jsArrElems (jsGetProp lastState "notes")
  let asOf := jsNullish (jsGetProp lastState "as_of") (.str "")
  { meta := { source := "Universal Ledger CLI", version := VERSION,
              lid := r.lid, created_at := r.created_at, project := r.project },
    summary := r.summary,
    goals := goals,
    constraints := constraints,
    style := { tone := jsNullish (jsGetProp style "tone") (.str "Precise, technical"),
               format := jsNullish (jsGetProp style "format") (.str "Bullets preferred"),
               ask_when_uncertain :=
                 jsNullish (jsGetProp style "ask_when_uncertain") (.bool true) },
    last_known_state := { as_of := asOf, notes := lastNotes },
    instructions :=
      ["Treat this block as authoritative user-provided context.",
       "Do not assume any prior internal memory beyond this block.",
       "Ask for clarification if this block conflicts with current conversation state."] }

/-- The `lines` array built by `formatText(ctx)` (`ulc.js` lines 212–248),
before the final `join("\n")`.  Conditions mirror the source exactly:
`ctx.goals.length` (numeric truthiness), and
`ctx.last_known_state?.notes?.length || ctx.last_known_state?.as_of`. -/
def formatTextLines (ctx : ContextPacket) : List String :=
  ["[CONTEXT_BLOCK_START]",
   "Source: " ++ ctx.meta.source ++ " v" ++ ctx.meta.version,
   "Ledger ID: " ++ toStrOpt ctx.meta.lid,
   "Project: " ++ toStrOpt ctx.meta.project,
   "Created: " ++ toStrOpt ctx.meta.created_at,
   "",
   "Summary:",
   "- " ++ toStrOpt ctx.summary,
   ""]
  ++ (if ctx.goals.length ≠ 0 then
        "Goals:" :: (ctx.goals.map (fun g => "- " ++ jsToString g) ++ [""])
      else [])
  ++ (if ctx.constraints.length ≠ 0 then
        "Constraints:" :: (ctx.constraints.map (fun c => "- " ++ jsToString c) ++ [""])
      else [])
  ++ ["Style:",
      "- Tone: " ++ jsToString ctx.style.tone,
      "- Format: " ++ jsToString ctx.style.format,
      "- Ask when uncertain: " ++
        (if ctx.style.ask_when_uncertain.truthy then "yes" else "no"),
      ""]
  ++ (if ctx.last_known_state.notes.length ≠ 0 || ctx.last_known_state.as_of.truthy then
        "Last Known State:" ::
          ((if ctx.last_known_state.as_of.truthy then
              ["- As of: " ++ jsToString ctx.last_known_state.as_of]
            else [])
           ++ ctx.last_known_state.notes.map (fun n => "- " ++ jsToString n)
           ++ [""])
      else [])
  ++ ("Instructions:" :: ctx.instructions.map (fun i => "- " ++ i))
  ++ ["[CONTEXT_BLOCK_END]"]

/-- `formatText(ctx)`: the joined text block. -/
def formatText (ctx : ContextPacket) : String :=
  String.intercalate "\n" (formatTextLines ctx)

/-! ## `init` -/

/-- `initLedgerEntry({lid, project, summary, goals, constraints})` from
`ulc.js` (lines 285–321).  `today` stands for `todayISO()`.  Note that, as in
the source, the `summary` parameter is accepted but never used: the summary
is always the TODO placeholder. -/
def initLedgerEntry (lid project : String) (summary : Option String)
    (goals constraints : Option (List String)) (today : String) : LedgerRecord :=
  { lid := some (.str lid),
    project := some (.str project),
    created_at := some (.str today),
    summary := some (.str "TODO: one-sentence purpose for this collaboration context"),
    goals := some (.arr
      (match goals with
       | some l => if l.length ≠ 0 then l.map JsVal.str else [.str "TODO", .str "TODO"]
       | none => [.str "TODO", .str "TODO"])),
    constraints := some (.arr
      (match constraints with
       | some l => if l.length ≠ 0 then l.map JsVal.str else
           [.str "No claims of persistent AI memory",
            .str "No bypassing safeguards",
            .str "No network calls in v1"]
       | none =>
           [.str "No claims of persistent AI memory",
            .str "No bypassing safeguards",
            .str "No network calls in v1"])),
    style := some (.obj
      [("tone", .str "Precise, technical, minimal metaphor"),
       ("format", .str "Short paragraphs, explicit bullets"),
       ("ask_when_uncertain", .bool true)]),
    last_state := some (.obj
      [("as_of", .str today),
       ("notes", .arr [.str "Initialized ledger entry template via `ulc init`."])]),
    modified_at := none }

/-! ## `list` -/

/-- `readJson(filePath)` from `ulc.js` (lines 106–113).  The file's content is
abstracted as its parse result (`none` = unreadable or not well-formed JSON).
On failure `readJson` calls `die`, i.e. `process.exit`: the resulting
`Except.error` models a process termination that no `try/catch` in a caller
can intercept.  The parse-failure detail appended by the source is abstracted
away; the path is kept. -/
def readJson (filePath : String) (content : Option JsVal) : Except String JsVal :=
  match content with
  | some j => .ok j
  | none => .error ("failed to read or parse JSON: " ++ filePath)

/-- One row of `listLedgerEntries`' result. -/
structure ListEntry where
  lid : JsVal
  project : JsVal
  created_at : JsVal
  summary : JsVal
  file : String

/-- The loop body of `listLedgerEntries`: for each file, `readJson` (whose
`die` terminates the process — the `try/catch` around it only catches thrown
exceptions, and nothing in the loop body throws), then skip entries whose
`lid` or `project` is absent/falsy. -/
def collectEntries (ledgerDir : String) :
    List (String × Option JsVal) → Except String (List ListEntry)
  | [] => .ok []
  | (name, content) :: rest =>
    match readJson (ledgerDir ++ "/" ++ name) content with
    | .error m => .error m
    | .ok r =>
      match collectEntries ledgerDir rest with
      | .error m => .error m
      | .ok es =>
        if truthyOpt (jsGetProp r "lid") && truthyOpt (jsGetProp r "project") then
          .ok ({ lid := (jsGetProp r "lid").getD .null,
                 project := (jsGetProp r "project").getD .null,
                 created_at := jsNullish (jsGetProp r "created_at") (.str ""),
                 summary := jsNullish (jsGetProp r "summary") (.str ""),
                 file := ledgerDir ++ "/" ++ name } :: es)
        else .ok es

/-- Sort key: `String(e.created_at)`. -/
def entryKey (e : ListEntry) : String := jsToString e.created_at

/-- Stable descending insertion for the `entries.sort` comparator
`(a, b) => String(b.created_at).localeCompare(String(a.created_at))`
(`localeCompare` modelled as code-point comparison, adequate for the
ISO-date keys the sort is documented for). -/
def insertDesc (e : ListEntry) : List ListEntry → List ListEntry
  | [] => [e]
  | x :: xs => if entryKey x < entryKey e then e :: x :: xs else x :: insertDesc e xs

/-- Stable sort of the entries, newest (largest key) first. -/
def sortEntriesDesc : List ListEntry → List ListEntry
  | [] => []
  | x :: xs => insertDesc x (sortEntriesDesc xs)

/-- `listLedgerEntries(ledgerDir)` from `ulc.js` (lines 323–346): filter to
`.json` files, collect parseable entries having truthy `lid` and `project`,
sort newest-first.  The directory listing is abstracted as the list of
(filename, parse result) pairs. -/
def listLedgerEntries (ledgerDir : String) (files : List (String × Option JsVal)) :
    Except String (List ListEntry) :=
  match collectEntries ledgerDir (files.filter (fun f => strEndsWith f.1 ".json")) with
  | .error m => .error m
  | .ok es => .ok (sortEntriesDesc es)

/-! ## `update` (the patcher) -/

/-- A flag value as produced by `parseArgs`: a lone occurrence yields the
string, repeated occurrences accumulate into an array. -/
inductive ArgVal where
  | one : String → ArgVal
  | many : List String → ArgVal

/-- JS truthiness of a flag value (arrays are always truthy). -/
def argTruthy : ArgVal → Bool
  | .one s => s ≠ ""
  | .many _ => true

/-- Truthiness of a possibly-absent flag. -/
def argTruthyOpt : Option ArgVal → Bool
  | none => false
  | some v => argTruthy v

/-- `Array.isArray(x) ? x : x ? [x] : []` — normalisation applied to every
repeatable update flag. -/
def argList : Option ArgVal → List String
  | none => []
  | some (.many l) => l
  | some (.one s) => if s = "" then [] else [s]

/-- The JSON value a flag value becomes when assigned into the record. -/
def argToJsVal : ArgVal → JsVal
  | .one s => .str s
  | .many l => .arr (l.map .str)

/-- `String(v)` for a flag value (arrays join with commas). -/
def argJoinString : ArgVal → String
  | .one s => s
  | .many l => String.intercalate "," l

/-- The update flags recognised by `ulc update` (dashes in flag names become
camelCase: `add-goal` ↦ `addGoal`, `ask-when-uncertain` ↦
`askWhenUncertain`, `add-note` ↦ `addNote`). -/
structure UpdateArgs where
  lid : Option ArgVal
  summary : Option ArgVal
  project : Option ArgVal
  addGoal : Option ArgVal
  removeGoal : Option ArgVal
  addConstraint : Option ArgVal
  removeConstraint : Option ArgVal
  askWhenUncertain : Option ArgVal
  addNote : Option ArgVal

/-- The all-absent flag set. -/
def noArgs : UpdateArgs :=
  { lid := none, summary := none, project := none, addGoal := none,
    removeGoal := none, addConstraint := none, removeConstraint := none,
    askWhenUncertain := none, addNote := none }

/-- `parseYesNo(v, flagName)` from `ulc.js` (lines 268–274), already knowing
`v` is non-null, for `flagName = "--ask-when-uncertain"`. -/
def parseYesNo (s : String) : Except String Bool :=
  let t := jsToLower (jsTrim s)
  if t = "yes" || t = "true" || t = "1" then .ok true
  else if t = "no" || t = "false" || t = "0" then .ok false
  else .error "invalid value for --ask-when-uncertain: expected yes|no"

/-- `if (args.summary) { rec.summary = args.summary; changed = true; }`. -/
def stepSummary (a : UpdateArgs) (rc : LedgerRecord × Bool) : LedgerRecord × Bool :=
  match a.summary with
  | some v => if argTruthy v then ({ rc.1 with summary := some (argToJsVal v) }, true) else rc
  | none => rc

/-- `if (args.project) { rec.project = args.project; changed = true; }`. -/
def stepProject (a : UpdateArgs) (rc : LedgerRecord × Bool) : LedgerRecord × Bool :=
  match a.project with
  | some v => if argTruthy v then ({ rc.1 with project := some (argToJsVal v) }, true) else rc
  | none => rc

/-- The `add-goal` block: normalise `rec.goals` to an array, push every
requested value, set `changed` unconditionally. -/
def stepAddGoals (a : UpdateArgs) (rc : LedgerRecord × Bool) : LedgerRecord × Bool :=
  let vals := argList a.addGoal
  if vals.isEmpty then rc
  else ({ rc.1 with goals := some (.arr (jsArrElems rc.1.goals ++ vals.map .str)) }, true)

/-- `removeGoals.includes(g)`: strict equality of a goal element against the
requested strings (a non-string element never matches). -/
def jsIncludesVal (vals : List String) (x : JsVal) : Bool :=
  match x with
  | .str s => vals.contains s
  | _ => false

/-- The `remove-goal` block: filter out every exact match, set `changed` only
if the length shrank. -/
def stepRemoveGoals (a : UpdateArgs) (rc : LedgerRecord × Bool) : LedgerRecord × Bool :=
  let vals := argList a.removeGoal
  if vals.isEmpty then rc
  else
    let g := jsArrElems rc.1.goals
    let g2 := g.filter (fun x => !jsIncludesVal vals x)
    ({ rc.1 with goals := some (.arr g2) }, rc.2 || decide (g2.length ≠ g.length))

/-- The `add-constraint` block (same semantics as `add-goal`). -/
def stepAddConstraints (a : UpdateArgs) (rc : LedgerRecord × Bool) : LedgerRecord × Bool :=
  let vals := argList a.addConstraint
  if vals.isEmpty then rc
  else ({ rc.1 with constraints := some (.arr (jsArrElems rc.1.constraints ++ vals.map .str)) }, true)

/-- The `remove-constraint` block (same semantics as `remove-goal`). -/
def stepRemoveConstraints (a : UpdateArgs) (rc : LedgerRecord × Bool) : LedgerRecord × Bool :=
  let vals := argList a.removeConstraint
  if vals.isEmpty then rc
  else
    let c := jsArrElems rc.1.constraints
    let c2 := c.filter (fun x => !jsIncludesVal vals x)
    ({ rc.1 with constraints := some (.arr c2) }, rc.2 || decide (c2.length ≠ c.length))

/-- The `ask-when-uncertain` block: normalise `rec.style` to an object, set
`style.ask_when_uncertain` to the parsed yes/no (whose `die` on a malformed
value terminates the process), set `changed` unconditionally. -/
def stepAsk (a : UpdateArgs) (rc : LedgerRecord × Bool) :
    Except String (LedgerRecord × Bool) :=
  match a.askWhenUncertain with
  | some v =>
    if argTruthy v then
      match parseYesNo (argJoinString v) with
      | .error m => .error m
      | .ok b =>
        .ok ({ rc.1 with
                 style := some (jsSetProp (jsObjGuard rc.1.style) "ask_when_uncertain" (.bool b)) },
             true)
    else .ok rc
  | none => .ok rc

/-- `rec.last_state.notes.includes(n)` for a flag string `n`: strict
equality, so only a string element equal to `n` matches. -/
def notesIncludes (notes : List JsVal) (n : String) : Bool :=
  notes.any (fun x => match x with | .str s => s == n | _ => false)

/-- First `for` loop of the `add-note` block: push each requested note not
already present (dedupe by exact string match); does not touch `addedAny`. -/
def addNotesLoop1 (notes : List JsVal) : List String → List JsVal
  | [] => notes
  | n :: rest =>
    addNotesLoop1 (if notesIncludes notes n then notes else notes ++ [.str n]) rest

/-- Second `for` loop of the `add-note` block: push each requested note not
already present and record in `addedAny` whether anything was pushed. -/
def addNotesLoop2 (notes : List JsVal) : List String → List JsVal × Bool
  | [] => (notes, false)
  | n :: rest =>
    if notesIncludes notes n then addNotesLoop2 notes rest
    else
      let r := addNotesLoop2 (notes ++ [.str n]) rest
      (r.1, true)

/-- The `add-note` block of `ulc update` (`ulc.js` lines 533–562): normalise
`rec.last_state` to an object and `last_state.notes` to an array, run the two
dedupe loops in source order on the same array, and fold `addedAny` into
`changed`. -/
def stepAddNotes (a : UpdateArgs) (rc : LedgerRecord × Bool) : LedgerRecord × Bool :=
  let vals := argList a.addNote
  if vals.isEmpty then rc
  else
    let ls := jsObjGuard rc.1.last_state
    let notes0 := jsArrElems (jsGetProp ls "notes")
    let notes1 := addNotesLoop1 notes0 vals
    let result := addNotesLoop2 notes1 vals
    ({ rc.1 with last_state := some (jsSetProp ls "notes" (.arr result.1)) },
     rc.2 || result.2)

/-- The edit phase of `ulc update` (`ulc.js` lines 460–562): the eight edit
blocks in source order, starting from `changed = false`.  Only the
`ask-when-uncertain` block can terminate the process (malformed yes/no). -/
def applyEdits (r : LedgerRecord) (a : UpdateArgs) : Except String (LedgerRecord × Bool) :=
  match stepAsk a (stepRemoveConstraints a (stepAddConstraints a (stepRemoveGoals a
      (stepAddGoals a (stepProject a (stepSummary a (r, false))))))) with
  | .error m => .error m
  | .ok rc7 => .ok (stepAddNotes a rc7)

/-- The stamping step run when `changed` is true (`ulc.js` lines 569–578):
normalise `last_state` to an object, set `last_state.as_of` to today's date,
normalise `last_state.notes` to an array, and set `modified_at` to the
current timestamp. -/
def stampRecord (r : LedgerRecord) (today now : String) : LedgerRecord :=
  let ls := jsObjGuard r.last_state
  let ls1 := jsSetProp ls "as_of" (.str today)
  let ls2 := jsSetProp ls1 "notes" (.arr (jsArrElems (jsGetProp ls1 "notes")))
  { r with last_state := some ls2, modified_at := some (.str now) }

/-- Observable outcome of one `ulc update` invocation. -/
inductive UpdateOutcome where
  | fatal : String → UpdateOutcome
  | noChanges : UpdateOutcome
  | updated : UpdateOutcome
deriving DecidableEq, Repr

/-- The whole `update` command (`ulc.js` lines 452–588) as a function from
the stored record at `<ledger-dir>/<lid>.json` (`none` = file absent) and the
parsed flags to (outcome, stored record afterwards): check `--lid`, load and
hard-validate, apply the edits, stop with "no changes" when nothing set
`changed`, otherwise stamp, re-run hard validation, and only then write.
`die` messages for I/O paths are abbreviated (path interpolation is
external). -/
def updateFlow (stored : Option LedgerRecord) (a : UpdateArgs) (today now : String) :
    UpdateOutcome × Option LedgerRecord :=
  if !argTruthyOpt a.lid then (.fatal "update requires --lid <LID>", stored)
  else
    match stored with
    | none => (.fatal "ledger entry not found", stored)
    | some r =>
      match hardValidateLedgerRecord r with
      | .error m => (.fatal m, stored)
      | .ok r1 =>
        match applyEdits r1 a with
        | .error m => (.fatal m, stored)
        | .ok rc =>
          if !rc.2 then (.noChanges, stored)
          else
            let r3 := stampRecord rc.1 today now
            match hardValidateLedgerRecord r3 with
            | .error m => (.fatal m, stored)
            | .ok r4 => (.updated, some r4)

/-! ## Concrete fixtures used by the theorems -/

/-- A well-formed stored record with no optional structures. -/
def sampleRecord : LedgerRecord :=
  { lid := some (.str "2026-01-01-TEST"), project := some (.str "P"),
    created_at := some (.str "2026-01-01"), summary := some (.str "S"),
    goals := none, constraints := none, style := none, last_state := none,
    modified_at := none }

/-- `ulc update --lid 2026-01-01-TEST --add-note "N"`. -/
def addNoteArgs : UpdateArgs :=
  { noArgs with lid := some (.one "2026-01-01-TEST"), addNote := some (.one "N") }

/-- `ulc update --lid 2026-01-01-TEST --summary "S"` where the record's
summary already is `"S"`. -/
def sameSummaryArgs : UpdateArgs :=
  { noArgs with lid := some (.one "2026-01-01-TEST"), summary := some (.one "S") }

/-- `ulc update --lid 2026-01-01-TEST --summary "A" --summary "B"` (repeated
flag, so `parseArgs` builds an array). -/
def dupSummaryArgs : UpdateArgs :=
  { noArgs with lid := some (.one "2026-01-01-TEST"), summary := some (.many ["A", "B"]) }

/-- `ulc update --lid 2026-01-01-TEST` with no edit flag at all. -/
def lidOnlyArgs : UpdateArgs := { noArgs with lid := some (.one "2026-01-01-TEST") }

/-- A remove-goal-only flag set. -/
def removeGoalOnly (vals : List String) : UpdateArgs :=
  { noArgs with removeGoal := some (.many vals) }

/-- `sampleRecord` with goals `["X", "Y", "X"]`. -/
def goalsXYX : LedgerRecord :=
  { sampleRecord with goals := some (.arr [.str "X", .str "Y", .str "X"]) }

/-- `sampleRecord` with `created_at` blank after trimming (but truthy). -/
def blankCreatedRecord : LedgerRecord :=
  { sampleRecord with created_at := some (.str " ") }

/-- A record whose `lid` and `created_at` are fine but whose `project` and
`summary` are absent or empty. -/
def missingProjSummaryRecord : LedgerRecord :=
  { sampleRecord with project := none, summary := some (.str "") }

/-- `sampleRecord` with a non-boolean `style.ask_when_uncertain`. -/
def askMaybeRecord : LedgerRecord :=
  { sampleRecord with style := some (.obj [("ask_when_uncertain", .str "maybe")]) }

/-! ## C1 -/

/-- C1: the claim says `list` silently skips files that fail to parse and, on
a directory with one corrupt JSON file and one valid record, returns only the
valid record without ever raising.  The code disagrees: `readJson` reacts to
a parse failure with `die` (`process.exit`), which the `try/catch` inside
`listLedgerEntries` cannot intercept, so the whole `list` invocation
terminates with a fatal error — even though the catch block's own comment
says "ignore bad files for list (keep list usable)".  This theorem evaluates
the embedded `listLedgerEntries` at exactly the claim's scenario. -/
theorem list_terminates_on_corrupt_file :
    listLedgerEntries "dir"
        [("good.json", some (.obj [("lid", .str "2026-01-01-TEST"), ("project", .str "P")])),
         ("bad.json", none)] =
      Except.error "failed to read or parse JSON: dir/bad.json" := rfl

/-! ## C2 -/

/-- C2: the claim says appending a genuinely new note counts as a change, so
the record is re-stamped and persisted, and that patching twice with the same
`add-note` value leaves the note present exactly once in the persisted
record.  The code disagrees: the `add-note` block contains two copies of the
dedupe loop; the first pushes the new notes without recording that fact, so
the second finds every note already present and `addedAny` stays false.
Hence an `update` whose only edit is `--add-note "N"` on a record with no
notes reports "no changes", performs no write, and leaves the stored record
(without the note) untouched — running it twice persists the note zero
times, not once. -/
theorem addNote_never_marks_change :
    updateFlow (some sampleRecord) addNoteArgs "2026-02-03" "2026-02-03T12:00:00" =
      (UpdateOutcome.noChanges, some sampleRecord) ∧
    sampleRecord.last_state = none := ⟨rfl, rfl⟩

/-! ## C3 -/

/-- C3: the claim says the created record's summary is the supplied
`--summary` text when one is given.  The code disagrees: `initLedgerEntry`
receives the summary but never uses it, always writing the TODO placeholder
(contradicting the tool's own help text, "Set initial summary").  The goals
half of the claim does hold: a supplied `--goal` suppresses the placeholder
goals.  This theorem evaluates the embedded `initLedgerEntry` at the failing
input. -/
theorem init_ignores_supplied_summary :
    (initLedgerEntry "2026-01-01-TEST" "Universal Ledger CLI" (some "Real summary")
        none none "2026-02-03").summary =
      some (.str "TODO: one-sentence purpose for this collaboration context") ∧
    (initLedgerEntry "2026-01-01-TEST" "Universal Ledger CLI" (some "Real summary")
        (some ["G1"]) none "2026-02-03").goals = some (.arr [.str "G1"]) ∧
    (initLedgerEntry "2026-01-01-TEST" "Universal Ledger CLI" none
        none none "2026-02-03").goals = some (.arr [.str "TODO", .str "TODO"]) :=
  ⟨rfl, rfl, rfl⟩

/-! ## C5 -/

/-- Hard validation never rewrites the record: on success it returns its
argument unchanged. -/
theorem hardValidate_ok_eq {r r' : LedgerRecord}
    (h : hardValidateLedgerRecord r = Except.ok r') : r' = r := by
  unfold hardValidateLedgerRecord at h
  repeat' split at h
  all_goals simp_all

theorem truthyOpt_iff (o : Option JsVal) :
    truthyOpt o = true ↔ ∃ v, o = some v ∧ v.truthy = true := by
  cases o <;> simp [truthyOpt]

theorem lidValid_iff (o : Option JsVal) :
    lidValid o = true ↔ ∃ s, o = some (.str s) ∧ 3 ≤ (jsTrim s).length := by
  cases o with
  | none => simp [lidValid]
  | some v => cases v <;> simp [lidValid]

theorem strFieldValid_iff (o : Option JsVal) :
    strFieldValid o = true ↔ ∃ s, o = some (.str s) ∧ jsTrim s ≠ "" := by
  cases o with
  | none => simp [strFieldValid]
  | some v => cases v <;> simp [strFieldValid]

theorem jsTrim_empty : jsTrim "" = "" := rfl

theorem lidValid_truthy {o : Option JsVal} (h : lidValid o = true) :
    truthyOpt o = true := by
  obtain ⟨s, rfl, hs⟩ := (lidValid_iff o).mp h
  have hne : s ≠ "" := by
    intro h0
    subst h0
    simp [jsTrim_empty] at hs
  simp [truthyOpt, JsVal.truthy, hne]

theorem strFieldValid_truthy {o : Option JsVal} (h : strFieldValid o = true) :
    truthyOpt o = true := by
  obtain ⟨s, rfl, hs⟩ := (strFieldValid_iff o).mp h
  have hne : s ≠ "" := by
    intro h0
    subst h0
    exact hs jsTrim_empty
  simp [truthyOpt, JsVal.truthy, hne]

theorem missingFields_nil_iff (r : LedgerRecord) :
    missingFields r = [] ↔
      (truthyOpt r.lid = true ∧ truthyOpt r.project = true ∧
       truthyOpt r.created_at = true ∧ truthyOpt r.summary = true) := by
  have h1 : recField r "lid" = r.lid := rfl
  have h2 : recField r "project" = r.project := rfl
  have h3 : recField r "created_at" = r.created_at := rfl
  have h4 : recField r "summary" = r.summary := rfl
  simp [missingFields, requiredFields, List.filter_eq_nil_iff, h1, h2, h3, h4]

/-- C5 counterexample: the claim says hard validation succeeds exactly when
all four required fields are non-blank after trimming, so it should fail on a
`created_at` of `" "`.  It does not: `created_at` only receives the
JS-truthiness check of the `missing` filter, never a trim check, so a
whitespace-only `created_at` validates successfully. -/
theorem blank_created_at_passes_validation :
    hardValidateLedgerRecord blankCreatedRecord = Except.ok blankCreatedRecord ∧
    blankCreatedRecord.created_at = some (.str " ") ∧
    jsTrim " " = "" := ⟨rfl, rfl, rfl⟩

/-- C5 (amended): hard validation succeeds — returning the record unchanged —
exactly when `lid` is a string of trimmed length ≥ 3, `project` and `summary`
are strings that are non-blank after trimming, and `created_at` is present
and JS-truthy (trimming is not checked for `created_at`).  When some subset
of the four required fields is absent or JS-falsy, the error enumerates
exactly that subset of field names. -/
theorem validate_required_characterization (r : LedgerRecord) :
    (hardValidateLedgerRecord r = Except.ok r ↔
      ((∃ s, r.lid = some (.str s) ∧ 3 ≤ (jsTrim s).length) ∧
       (∃ s, r.project = some (.str s) ∧ jsTrim s ≠ "") ∧
       (∃ s, r.summary = some (.str s) ∧ jsTrim s ≠ "") ∧
       (∃ v, r.created_at = some v ∧ v.truthy = true))) ∧
    (∀ r', hardValidateLedgerRecord r = Except.ok r' → r' = r) ∧
    (missingFields r ≠ [] →
      hardValidateLedgerRecord r =
        Except.error ("ledger entry missing required field(s): " ++
          String.intercalate ", " (missingFields r))) := by
  refine ⟨⟨fun h => ?_, fun h => ?_⟩, fun r' h => ?_, fun h => ?_⟩
  · unfold hardValidateLedgerRecord at h
    by_cases hm : (missingFields r).isEmpty = true
    · rw [hm] at h
      simp only [Bool.not_true, Bool.false_eq_true, if_false] at h
      by_cases hl : lidValid r.lid = true
      · rw [hl] at h
        simp only [Bool.not_true, Bool.false_eq_true, if_false] at h
        by_cases hp : strFieldValid r.project = true
        · rw [hp] at h
          simp only [Bool.not_true, Bool.false_eq_true, if_false] at h
          by_cases hs : strFieldValid r.summary = true
          · have hmnil : missingFields r = [] := by
              simpa [List.isEmpty_iff] using hm
            have hc := ((missingFields_nil_iff r).mp hmnil).2.2.1
            exact ⟨(lidValid_iff _).mp hl, (strFieldValid_iff _).mp hp,
              (strFieldValid_iff _).mp hs, (truthyOpt_iff _).mp hc⟩
          · rw [Bool.not_eq_true] at hs
            rw [hs] at h
            simp at h
        · rw [Bool.not_eq_true] at hp
          rw [hp] at h
          simp at h
      · rw [Bool.not_eq_true] at hl
        rw [hl] at h
        simp at h
    · rw [Bool.not_eq_true] at hm
      rw [hm] at h
      simp at h
  · obtain ⟨hl, hp, hs, hc⟩ := h
    have hl' : lidValid r.lid = true := (lidValid_iff _).mpr hl
    have hp' : strFieldValid r.project = true := (strFieldValid_iff _).mpr hp
    have hs' : strFieldValid r.summary = true := (strFieldValid_iff _).mpr hs
    have hmnil : missingFields r = [] :=
      (missingFields_nil_iff r).mpr
        ⟨lidValid_truthy hl', strFieldValid_truthy hp',
         (truthyOpt_iff _).mpr hc, strFieldValid_truthy hs'⟩
    unfold hardValidateLedgerRecord
    simp [hmnil, hl', hp', hs']
  · exact hardValidate_ok_eq h
  · have hm : (missingFields r).isEmpty = false := by
      simpa [List.isEmpty_iff] using h
    unfold hardValidateLedgerRecord
    simp [hm]

/-- C5 witness: the characterization applied to a record with a valid `lid`
and `created_at` but an absent `project` and an empty `summary` — the error
enumerates exactly those two field names. -/
theorem validate_required_characterization_witness :
    hardValidateLedgerRecord missingProjSummaryRecord =
      Except.error "ledger entry missing required field(s): project, summary" :=
  (validate_required_characterization missingProjSummaryRecord).2.2 (by decide)

/-! ## C6 -/

theorem jsNullish_of_ne_null {v : JsVal} (h : v ≠ .null) (d : JsVal) :
    jsNullish (some v) d = v := by
  cases v <;> first | rfl | exact absurd rfl h

/-- C6 counterexample: the claim says `compile` fills `ask_when_uncertain`
with the record's boolean value, or `true` whenever the field is absent *or
non-boolean*.  The code uses `??`, which only replaces `undefined`/`null`, so
a present non-boolean value such as the string `"maybe"` flows through
unchanged instead of becoming `true`. -/
theorem nonboolean_ask_flows_through :
    (compileContext askMaybeRecord).style.ask_when_uncertain = .str "maybe" ∧
    JsVal.str "maybe" ≠ JsVal.bool true :=
  ⟨rfl, fun h => JsVal.noConfusion h⟩

/-- C6 (amended): `compile` fills `style.tone` with the record's value or
"Precise, technical", `style.format` with the record's value or "Bullets
preferred", and `style.ask_when_uncertain` with the record's value or `true`
— where in each case the default applies exactly when the field is absent or
null (a present non-null, non-boolean `ask_when_uncertain` is kept as-is);
and a record with no `style` and no `last_state` compiles to exactly those
defaults plus `last_known_state = {as_of: "", notes: []}`. -/
theorem compile_defaulting (r : LedgerRecord) :
    (∀ v, jsGetProp (jsNullish r.style (.obj [])) "tone" = some v → v ≠ .null →
       (compileContext r).style.tone = v) ∧
    ((jsGetProp (jsNullish r.style (.obj [])) "tone" = none ∨
      jsGetProp (jsNullish r.style (.obj [])) "tone" = some .null) →
       (compileContext r).style.tone = .str "Precise, technical") ∧
    (∀ v, jsGetProp (jsNullish r.style (.obj [])) "format" = some v → v ≠ .null →
       (compileContext r).style.format = v) ∧
    ((jsGetProp (jsNullish r.style (.obj [])) "format" = none ∨
      jsGetProp (jsNullish r.style (.obj [])) "format" = some .null) →
       (compileContext r).style.format = .str "Bullets preferred") ∧
    (∀ v, jsGetProp (jsNullish r.style (.obj [])) "ask_when_uncertain" = some v →
       v ≠ .null → (compileContext r).style.ask_when_uncertain = v) ∧
    ((jsGetProp (jsNullish r.style (.obj [])) "ask_when_uncertain" = none ∨
      jsGetProp (jsNullish r.style (.obj [])) "ask_when_uncertain" = some .null) →
       (compileContext r).style.ask_when_uncertain = .bool true) ∧
    (r.style = none → r.last_state = none →
       (compileContext r).style.tone = .str "Precise, technical" ∧
       (compileContext r).style.format = .str "Bullets preferred" ∧
       (compileContext r).style.ask_when_uncertain = .bool true ∧
       (compileContext r).last_known_state.as_of = .str "" ∧
       (compileContext r).last_known_state.notes = []) := by
  have htone : (compileContext r).style.tone =
      jsNullish (jsGetProp (jsNullish r.style (.obj [])) "tone")
        (.str "Precise, technical") := rfl
  have hformat : (compileContext r).style.format =
      jsNullish (jsGetProp (jsNullish r.style (.obj [])) "format")
        (.str "Bullets preferred") := rfl
  have hask : (compileContext r).style.ask_when_uncertain =
      jsNullish (jsGetProp (jsNullish r.style (.obj [])) "ask_when_uncertain")
        (.bool true) := rfl
  refine ⟨fun v hv hne => ?_, fun hd => ?_, fun v hv hne => ?_, fun hd => ?_,
    fun v hv hne => ?_, fun hd => ?_, fun h1 h2 => ?_⟩
  · rw [htone, hv, jsNullish_of_ne_null hne]
  · rcases hd with hd | hd <;> rw [htone, hd] <;> rfl
  · rw [hformat, hv, jsNullish_of_ne_null hne]
  · rcases hd with hd | hd <;> rw [hformat, hd] <;> rfl
  · rw [hask, hv, jsNullish_of_ne_null hne]
  · rcases hd with hd | hd <;> rw [hask, hd] <;> rfl
  · refine ⟨?_, ?_, ?_, ?_, ?_⟩ <;>
      simp [compileContext, h1, h2, jsNullish, jsGetProp, jsArrElems]

/-- C6 witness: the defaults case applied to the concrete `sampleRecord`
(no `style`, no `last_state`). -/
theorem compile_defaulting_witness :
    (compileContext sampleRecord).style.tone = .str "Precise, technical" ∧
    (compileContext sampleRecord).style.format = .str "Bullets preferred" ∧
    (compileContext sampleRecord).style.ask_when_uncertain = .bool true ∧
    (compileContext sampleRecord).last_known_state.as_of = .str "" ∧
    (compileContext sampleRecord).last_known_state.notes = [] :=
  (compile_defaulting sampleRecord).2.2.2.2.2.2 rfl rfl

/-! ## C7 -/

/-- C7: a patch whose only edit is `remove-goal` (one or many values) removes
every element of `goals` that exactly string-matches any requested value —
all occurrences, not just the first, keeping the survivors in order (the
result is a sublist of the normalised goals) — and sets `changed` exactly
when the resulting length differs.  In particular `remove-goal "X"` on goals
`["X","Y","X"]` yields `["Y"]` (see the witness). -/
theorem removeGoal_filters_all_matches (r : LedgerRecord) (vals : List String)
    (hne : vals ≠ []) :
    applyEdits r (removeGoalOnly vals) =
      Except.ok
        ({ r with goals := some (.arr
             ((jsArrElems r.goals).filter (fun x => !jsIncludesVal vals x))) },
         decide (((jsArrElems r.goals).filter (fun x => !jsIncludesVal vals x)).length ≠
           (jsArrElems r.goals).length)) ∧
    List.Sublist ((jsArrElems r.goals).filter (fun x => !jsIncludesVal vals x))
      (jsArrElems r.goals) ∧
    (∀ x ∈ (jsArrElems r.goals).filter (fun x => !jsIncludesVal vals x),
       jsIncludesVal vals x = false) ∧
    (∀ x ∈ jsArrElems r.goals, jsIncludesVal vals x = false →
       x ∈ (jsArrElems r.goals).filter (fun x => !jsIncludesVal vals x)) := by
  obtain ⟨v, vs, rfl⟩ : ∃ v vs, vals = v :: vs := by
    cases vals with
    | nil => exact absurd rfl hne
    | cons v vs => exact ⟨v, vs, rfl⟩
  refine ⟨rfl, List.filter_sublist _, fun x hx => ?_, fun x hx hnotin => ?_⟩
  · have := (List.mem_filter.mp hx).2
    simpa using this
  · exact List.mem_filter.mpr ⟨hx, by simp [hnotin]⟩

/-- C7 witness: `remove-goal "X"` on goals `["X","Y","X"]` yields `["Y"]`
with `changed = true`. -/
theorem removeGoal_filters_all_matches_witness :
    applyEdits goalsXYX (removeGoalOnly ["X"]) =
      Except.ok ({ goalsXYX with goals := some (.arr [.str "Y"]) }, true) :=
  (removeGoal_filters_all_matches goalsXYX ["X"] (by decide)).1

/-! ## C8 -/

/-- C8: for every context packet (with a string `as_of`, as every packet the
spec describes has), the text formatter emits, between the
`[CONTEXT_BLOCK_START]` header lines and the `[CONTEXT_BLOCK_END]` footer and
in this fixed order: the Goals section iff `goals` is non-empty and the
Constraints section iff `constraints` is non-empty (one "- " bullet per
entry, then a blank line); the Style section always; the Last Known State
section iff `as_of` is non-empty or `notes` is non-empty, with an "As of:"
bullet only when `as_of` is non-empty followed by one bullet per note; and
the Instructions section always. -/
theorem formatText_section_structure (ctx : ContextPacket) (s : String)
    (h : ctx.last_known_state.as_of = .str s) :
    formatTextLines ctx =
      ["[CONTEXT_BLOCK_START]",
       "Source: " ++ ctx.meta.source ++ " v" ++ ctx.meta.version,
       "Ledger ID: " ++ toStrOpt ctx.meta.lid,
       "Project: " ++ toStrOpt ctx.meta.project,
       "Created: " ++ toStrOpt ctx.meta.created_at,
       "",
       "Summary:",
       "- " ++ toStrOpt ctx.summary,
       ""]
      ++ (if ctx.goals.isEmpty then [] else
            "Goals:" :: (ctx.goals.map (fun g => "- " ++ jsToString g) ++ [""]))
      ++ (if ctx.constraints.isEmpty then [] else
            "Constraints:" :: (ctx.constraints.map (fun c => "- " ++ jsToString c) ++ [""]))
      ++ ["Style:",
          "- Tone: " ++ jsToString ctx.style.tone,
          "- Format: " ++ jsToString ctx.style.format,
          "- Ask when uncertain: " ++
            (if ctx.style.ask_when_uncertain.truthy then "yes" else "no"),
          ""]
      ++ (if s = "" ∧ ctx.last_known_state.notes.isEmpty then [] else
            "Last Known State:" ::
              ((if s = "" then [] else ["- As of: " ++ s])
               ++ ctx.last_known_state.notes.map (fun n => "- " ++ jsToString n)
               ++ [""]))
      ++ ("Instructions:" :: ctx.instructions.map (fun i => "- " ++ i))
      ++ ["[CONTEXT_BLOCK_END]"] := by
  unfold formatTextLines
  rw [h]
  by_cases hg : ctx.goals = []
  <;> by_cases hc : ctx.constraints = []
  <;> by_cases hn : ctx.last_known_state.notes = []
  <;> by_cases hs : s = ""
  <;> simp [hg, hc, hn, hs, JsVal.truthy, jsToString, List.isEmpty_iff,
        List.length_eq_zero]

/-- C8 witness: the structure theorem applied to the packet compiled from the
concrete `sampleRecord` (empty goals/constraints/notes, empty `as_of`). -/
theorem formatText_section_structure_witness :
    formatTextLines (compileContext sampleRecord) =
      ["[CONTEXT_BLOCK_START]",
       "Source: Universal Ledger CLI v0.1.0",
       "Ledger ID: 2026-01-01-TEST",
       "Project: P",
       "Created: 2026-01-01",
       "",
       "Summary:",
       "- S",
       "",
       "Style:",
       "- Tone: Precise, technical",
       "- Format: Bullets preferred",
       "- Ask when uncertain: yes",
       "",
       "Instructions:",
       "- Treat this block as authoritative user-provided context.",
       "- Do not assume any prior internal memory beyond this block.",
       "- Ask for clarification if this block conflicts with current conversation state.",
       "[CONTEXT_BLOCK_END]"] :=
  formatText_section_structure (compileContext sampleRecord) "" rfl

/-! ## C9 -/

theorem stepSummary_created_at (a : UpdateArgs) (rc : LedgerRecord × Bool) :
    (stepSummary a rc).1.created_at = rc.1.created_at := by
  unfold stepSummary
  cases a.summary with
  | none => rfl
  | some v => dsimp only; split <;> rfl

theorem stepProject_created_at (a : UpdateArgs) (rc : LedgerRecord × Bool) :
    (stepProject a rc).1.created_at = rc.1.created_at := by
  unfold stepProject
  cases a.project with
  | none => rfl
  | some v => dsimp only; split <;> rfl

theorem stepAddGoals_created_at (a : UpdateArgs) (rc : LedgerRecord × Bool) :
    (stepAddGoals a rc).1.created_at = rc.1.created_at := by
  unfold stepAddGoals
  by_cases h : (argList a.addGoal).isEmpty <;> simp [h]

theorem stepRemoveGoals_created_at (a : UpdateArgs) (rc : LedgerRecord × Bool) :
    (stepRemoveGoals a rc).1.created_at = rc.1.created_at := by
  unfold stepRemoveGoals
  by_cases h : (argList a.removeGoal).isEmpty <;> simp [h]

theorem stepAddConstraints_created_at (a : UpdateArgs) (rc : LedgerRecord × Bool) :
    (stepAddConstraints a rc).1.created_at = rc.1.created_at := by
  unfold stepAddConstraints
  by_cases h : (argList a.addConstraint).isEmpty <;> simp [h]

theorem stepRemoveConstraints_created_at (a : UpdateArgs) (rc : LedgerRecord × Bool) :
    (stepRemoveConstraints a rc).1.created_at = rc.1.created_at := by
  unfold stepRemoveConstraints
  by_cases h : (argList a.removeConstraint).isEmpty <;> simp [h]

theorem stepAsk_created_at (a : UpdateArgs) (rc rc' : LedgerRecord × Bool)
    (h : stepAsk a rc = .ok rc') : rc'.1.created_at = rc.1.created_at := by
  unfold stepAsk at h
  cases hq : a.askWhenUncertain with
  | none => rw [hq] at h; cases h; rfl
  | some v =>
    rw [hq] at h
    dsimp only at h
    split at h
    · cases hp : parseYesNo (argJoinString v) with
      | error m => rw [hp] at h; cases h
      | ok b => rw [hp] at h; cases h; rfl
    · cases h; rfl

theorem stepAddNotes_created_at (a : UpdateArgs) (rc : LedgerRecord × Bool) :
    (stepAddNotes a rc).1.created_at = rc.1.created_at := by
  unfold stepAddNotes
  by_cases h : (argList a.addNote).isEmpty <;> simp [h]

theorem applyEdits_created_at (r : LedgerRecord) (a : UpdateArgs)
    (rc : LedgerRecord × Bool) (h : applyEdits r a = .ok rc) :
    rc.1.created_at = r.created_at := by
  unfold applyEdits at h
  cases hask : stepAsk a (stepRemoveConstraints a (stepAddConstraints a
      (stepRemoveGoals a (stepAddGoals a (stepProject a (stepSummary a (r, false))))))) with
  | error m => rw [hask] at h; cases h
  | ok rc7 =>
    rw [hask] at h
    cases h
    rw [stepAddNotes_created_at, stepAsk_created_at _ _ _ hask,
      stepRemoveConstraints_created_at, stepAddConstraints_created_at,
      stepRemoveGoals_created_at, stepAddGoals_created_at,
      stepProject_created_at, stepSummary_created_at]


theorem stampRecord_created_at (r : LedgerRecord) (today now : String) :
    (stampRecord r today now).created_at = r.created_at := rfl

/-- C9: no update invocation ever alters `created_at`: whatever the stored
record and the flags (including invocations that die, report no changes, or
write), the `created_at` of the record stored afterwards equals the
`created_at` of the record stored before. -/
theorem patch_preserves_created_at (stored : Option LedgerRecord)
    (a : UpdateArgs) (today now : String) :
    Option.map LedgerRecord.created_at (updateFlow stored a today now).2 =
      Option.map LedgerRecord.created_at stored := by
  by_cases hlid : argTruthyOpt a.lid
  case neg => simp [updateFlow, hlid]
  case pos =>
  cases stored with
  | none => simp [updateFlow, hlid]
  | some r =>
    cases hv : hardValidateLedgerRecord r with
    | error m => simp [updateFlow, hlid, hv]
    | ok r1 =>
      cases he : applyEdits r1 a with
      | error m => simp [updateFlow, hlid, hv, he]
      | ok rc =>
        by_cases hch : rc.2
        · cases hv2 : hardValidateLedgerRecord (stampRecord rc.1 today now) with
          | error m => simp [updateFlow, hlid, hv, he, hv2, hch]
          | ok r4 =>
            have hr1 : r1 = r := hardValidate_ok_eq hv
            subst hr1
            have hr4 : r4 = stampRecord rc.1 today now := hardValidate_ok_eq hv2
            have hcr : rc.1.created_at = r1.created_at := applyEdits_created_at _ _ _ he
            simp [updateFlow, hlid, hv, he, hv2, hch, hr4,
              stampRecord_created_at, hcr]
        · simp [updateFlow, hlid, hv, he, hch]

/-! ## C10 -/

/-- C10: the store is only ever modified by an invocation whose outcome is
`updated` (first conjunct), and whenever the record produced by the edits
fails the hard re-validation run strictly before the write, the process
terminates with that validation error and the stored record is left untouched
(second conjunct). -/
theorem failed_validation_aborts_before_write :
    (∀ (stored : Option LedgerRecord) (a : UpdateArgs) (today now : String),
       (updateFlow stored a today now).1 ≠ UpdateOutcome.updated →
       (updateFlow stored a today now).2 = stored) ∧
    (∀ (r : LedgerRecord) (a : UpdateArgs) (today now : String)
       (rc : LedgerRecord × Bool) (m : String),
       argTruthyOpt a.lid = true →
       hardValidateLedgerRecord r = Except.ok r →
       applyEdits r a = Except.ok rc →
       rc.2 = true →
       hardValidateLedgerRecord (stampRecord rc.1 today now) = Except.error m →
       updateFlow (some r) a today now = (UpdateOutcome.fatal m, some r)) := by
  constructor
  · intro stored a today now h
    by_cases hlid : argTruthyOpt a.lid
    case neg => simp [updateFlow, hlid]
    case pos =>
    cases stored with
    | none => simp [updateFlow, hlid]
    | some r =>
      cases hv : hardValidateLedgerRecord r with
      | error m => simp [updateFlow, hlid, hv]
      | ok r1 =>
        cases he : applyEdits r1 a with
        | error m => simp [updateFlow, hlid, hv, he]
        | ok rc =>
          by_cases hch : rc.2
          · cases hv2 : hardValidateLedgerRecord (stampRecord rc.1 today now) with
            | error m => simp [updateFlow, hlid, hv, he, hv2, hch]
            | ok r4 =>
              exfalso
              apply h
              simp [updateFlow, hlid, hv, he, hv2, hch]
          · simp [updateFlow, hlid, hv, he, hch]
  · intro r a today now rc m hlid hv hok hch hv2
    simp [updateFlow, hlid, hv, hok, hch, hv2]

/-- C10 witness: `ulc update --lid ... --summary "A" --summary "B"` on the
concrete `sampleRecord`: the repeated flag turns `summary` into an array, the
re-validation before the write dies with "invalid summary", and the stored
record is unchanged. -/
theorem failed_validation_aborts_before_write_witness :
    updateFlow (some sampleRecord) dupSummaryArgs "2026-02-03" "2026-02-03T12:00:00" =
      (UpdateOutcome.fatal "ledger entry has invalid `summary`", some sampleRecord) :=
  failed_validation_aborts_before_write.2 sampleRecord dupSummaryArgs "2026-02-03"
    "2026-02-03T12:00:00"
    ({ sampleRecord with summary := some (.arr [.str "A", .str "B"]) }, true)
    "ledger entry has invalid `summary`" rfl rfl rfl rfl rfl

/-! ## C4 -/

/-- C4 counterexample: the claim says an edit sets `changed` only if it
actually alters the record — in particular, setting `summary` to its existing
value should not count as a change and should cause no write.  The code sets
`changed = true` unconditionally whenever `--summary` is supplied: patching
`sampleRecord` (whose summary is `"S"`) with `--summary "S"` yields the very
same record yet `changed = true`, and the flow then writes, stamping
`modified_at` and `last_state.as_of`. -/
theorem unchanged_summary_still_marks_change :
    applyEdits sampleRecord sameSummaryArgs = Except.ok (sampleRecord, true) ∧
    updateFlow (some sampleRecord) sameSummaryArgs "2026-02-03" "2026-02-03T12:00:00" =
      (UpdateOutcome.updated,
       some { sampleRecord with
                last_state := some (.obj [("as_of", .str "2026-02-03"), ("notes", .arr [])]),
                modified_at := some (.str "2026-02-03T12:00:00") }) ∧
    sampleRecord.modified_at = none :=
  ⟨rfl, rfl, rfl⟩

theorem stepProject_changed_mono (a : UpdateArgs) (rc : LedgerRecord × Bool)
    (h : rc.2 = true) : (stepProject a rc).2 = true := by
  unfold stepProject
  cases a.project with
  | none => exact h
  | some v => dsimp only; split <;> simp [h]

theorem stepAddGoals_changed_mono (a : UpdateArgs) (rc : LedgerRecord × Bool)
    (h : rc.2 = true) : (stepAddGoals a rc).2 = true := by
  unfold stepAddGoals
  by_cases hv : (argList a.addGoal).isEmpty <;> simp [hv, h]

theorem stepRemoveGoals_changed_mono (a : UpdateArgs) (rc : LedgerRecord × Bool)
    (h : rc.2 = true) : (stepRemoveGoals a rc).2 = true := by
  unfold stepRemoveGoals
  by_cases hv : (argList a.removeGoal).isEmpty <;> simp [hv, h]

theorem stepAddConstraints_changed_mono (a : UpdateArgs) (rc : LedgerRecord × Bool)
    (h : rc.2 = true) : (stepAddConstraints a rc).2 = true := by
  unfold stepAddConstraints
  by_cases hv : (argList a.addConstraint).isEmpty <;> simp [hv, h]

theorem stepRemoveConstraints_changed_mono (a : UpdateArgs) (rc : LedgerRecord × Bool)
    (h : rc.2 = true) : (stepRemoveConstraints a rc).2 = true := by
  unfold stepRemoveConstraints
  by_cases hv : (argList a.removeConstraint).isEmpty <;> simp [hv, h]

theorem stepAsk_changed_mono (a : UpdateArgs) (rc rc' : LedgerRecord × Bool)
    (hok : stepAsk a rc = .ok rc') (h : rc.2 = true) : rc'.2 = true := by
  unfold stepAsk at hok
  cases hq : a.askWhenUncertain with
  | none => rw [hq] at hok; cases hok; exact h
  | some v =>
    rw [hq] at hok
    dsimp only at hok
    split at hok
    · cases hp : parseYesNo (argJoinString v) with
      | error m => rw [hp] at hok; cases hok
      | ok b => rw [hp] at hok; cases hok; rfl
    · cases hok; exact h

theorem stepAddNotes_changed_mono (a : UpdateArgs) (rc : LedgerRecord × Bool)
    (h : rc.2 = true) : (stepAddNotes a rc).2 = true := by
  unfold stepAddNotes
  by_cases hv : (argList a.addNote).isEmpty <;> simp [hv, h]

theorem stepSummary_sets_changed (a : UpdateArgs) (rc : LedgerRecord × Bool)
    (h : argTruthyOpt a.summary = true) : (stepSummary a rc).2 = true := by
  unfold stepSummary
  cases hq : a.summary with
  | none => rw [hq] at h; cases h
  | some v =>
    rw [hq] at h
    simp only [argTruthyOpt] at h
    simp [h]

theorem stepProject_sets_changed (a : UpdateArgs) (rc : LedgerRecord × Bool)
    (h : argTruthyOpt a.project = true) : (stepProject a rc).2 = true := by
  unfold stepProject
  cases hq : a.project with
  | none => rw [hq] at h; cases h
  | some v =>
    rw [hq] at h
    simp only [argTruthyOpt] at h
    simp [h]

theorem stepAsk_sets_changed (a : UpdateArgs) (rc rc' : LedgerRecord × Bool)
    (hok : stepAsk a rc = .ok rc') (h : argTruthyOpt a.askWhenUncertain = true) :
    rc'.2 = true := by
  unfold stepAsk at hok
  cases hq : a.askWhenUncertain with
  | none => rw [hq] at h; cases h
  | some v =>
    rw [hq] at h
    simp only [argTruthyOpt] at h
    rw [hq] at hok
    dsimp only at hok
    rw [if_pos h] at hok
    cases hp : parseYesNo (argJoinString v) with
    | error m => rw [hp] at hok; cases hok
    | ok b => rw [hp] at hok; cases hok; rfl

/-- C4 (amended): an edit can set `changed` without altering the record —
`summary`, `project` and `ask-when-uncertain` set `changed` whenever the flag
is supplied, even when the supplied value equals the existing one.  What does
hold is: whenever the `changed` flag is still false after all edits, the
operation reports "no changes" and performs no write, leaving the stored file
(and hence its `modified_at`) untouched. -/
theorem changed_flag_behaviour (r : LedgerRecord) (a : UpdateArgs) (today now : String) :
    (∀ rc, applyEdits r a = Except.ok rc →
       (argTruthyOpt a.summary || argTruthyOpt a.project ||
        argTruthyOpt a.askWhenUncertain) = true → rc.2 = true) ∧
    (hardValidateLedgerRecord r = Except.ok r → argTruthyOpt a.lid = true →
     ∀ rc, applyEdits r a = Except.ok rc → rc.2 = false →
     updateFlow (some r) a today now = (UpdateOutcome.noChanges, some r)) := by
  constructor
  · intro rc hok htruthy
    unfold applyEdits at hok
    cases hask : stepAsk a (stepRemoveConstraints a (stepAddConstraints a
        (stepRemoveGoals a (stepAddGoals a (stepProject a (stepSummary a (r, false))))))) with
    | error m => rw [hask] at hok; cases hok
    | ok rc7 =>
      rw [hask] at hok
      cases hok
      apply stepAddNotes_changed_mono
      rcases Bool.or_eq_true_iff.mp htruthy with hsp | ha
      · rcases Bool.or_eq_true_iff.mp hsp with hs | hp
        · exact stepAsk_changed_mono _ _ _ hask
            (stepRemoveConstraints_changed_mono _ _
              (stepAddConstraints_changed_mono _ _
                (stepRemoveGoals_changed_mono _ _
                  (stepAddGoals_changed_mono _ _
                    (stepProject_changed_mono _ _
                      (stepSummary_sets_changed _ _ hs))))))
        · exact stepAsk_changed_mono _ _ _ hask
            (stepRemoveConstraints_changed_mono _ _
              (stepAddConstraints_changed_mono _ _
                (stepRemoveGoals_changed_mono _ _
                  (stepAddGoals_changed_mono _ _
                    (stepProject_sets_changed _ _ hp)))))
      · exact stepAsk_sets_changed _ _ _ hask ha
  · intro hv hlid rc hok hfalse
    simp [updateFlow, hlid, hv, hok, hfalse]

/-- C4 witness: an invocation with `--lid` and no edit flag reports "no
changes" and leaves the store untouched. -/
theorem changed_flag_behaviour_witness :
    updateFlow (some sampleRecord) lidOnlyArgs "2026-02-03" "2026-02-03T12:00:00" =
      (UpdateOutcome.noChanges, some sampleRecord) :=
  (changed_flag_behaviour sampleRecord lidOnlyArgs "2026-02-03" "2026-02-03T12:00:00").2
    rfl rfl (sampleRecord, false) rfl rfl

end ULC
